import Mathlib

/-!
# Verification of `c_bulk_xor` (khan_core.cpp)

A shallow embedding of the one executed function of the extension module
`ckhan`: `c_bulk_xor`, registered in the method table under the name
`bulk_xor`.  The embedding follows the body of the C++ function statement by
statement:

* the two `y#` arguments are byte buffers with their lengths,
* the length comparison raises `ValueError` with a fixed message,
* `new uint8_t[data_len]` yields a buffer of `data_len` cells of
  indeterminate content,
* the `for` loop is a step function on the pair (counter, output buffer);
  every memory access is checked and an access outside a buffer is a fault,
* `PyBytes_FromStringAndSize` copies the first `data_len` bytes of the
  buffer into the returned bytes object.

Lengths are `Py_ssize_t` values handed over by the argument parser, hence in
the range `0 .. PY_SSIZE_T_MAX`; the counter `i` never exceeds `data_len`, so
no machine-integer overflow is possible and lengths are natural numbers here.
Allocation is taken to succeed.
-/

namespace KhanCore

/-- A `uint8_t` value. -/
abbrev Byte := Fin 256

/-- The expression `a ^ b` on two `uint8_t` operands stored back into a
`uint8_t`: the operands are promoted, combined with exclusive-or, and the
result is truncated to eight bits. -/
def xor8 (a b : Byte) : Byte :=
  ⟨(a.val ^^^ b.val) % 256, Nat.mod_lt _ (by decide)⟩

/-- The exception classes of the host runtime that a call can end with. -/
inductive PyExc where
  | TypeError
  | ValueError
  | MemoryError
  deriving DecidableEq, Repr

/-- An exception set with `PyErr_SetString`: its class and its message. -/
structure PyErr where
  kind : PyExc
  msg : String
  deriving DecidableEq, Repr

/-- What can go wrong inside the model of the loop: a memory access outside
a buffer (undefined behaviour in C++), or the iteration budget running out. -/
inductive Fault where
  | outOfBounds
  | outOfFuel
  deriving DecidableEq, Repr

/-- How a call of `c_bulk_xor` ends: `NULL` with an exception set, a new
bytes object, or a fault of the loop. -/
inductive Outcome where
  | raised (e : PyErr)
  | returned (bytes : List Byte)
  | fault (f : Fault)
  deriving DecidableEq, Repr

/-- The variables the `for` loop changes: the counter `i` and the contents
of the buffer `output`. -/
structure LoopState where
  i : Nat
  output : List Byte
  deriving DecidableEq, Repr

/-- The array `new uint8_t[n]`: `n` cells whose initial content is whatever
the memory held, given here by `heap`. -/
def new_uint8_array (heap : Nat → Byte) (n : Nat) : List Byte :=
  (List.range n).map heap

/-- One execution of the loop body `output[i] = data[i] ^ keystream[i];`
followed by `++i`.  Each of the three accesses is checked against the
length of its buffer. -/
def loop_body (data keystream : List Byte) (s : LoopState) :
    Except Fault LoopState :=
  match data[s.i]?, keystream[s.i]? with
  | some d, some k =>
    if s.i < s.output.length then
      .ok { i := s.i + 1, output := s.output.set s.i (xor8 d k) }
    else
      .error .outOfBounds
  | _, _ => .error .outOfBounds

/-- The loop `for (...; i < data_len; ++i) body`, allowed at most `fuel`
iterations. -/
def for_loop (data keystream : List Byte) (data_len : Nat) :
    Nat → LoopState → Except Fault LoopState
  | 0, s => if s.i < data_len then .error .outOfFuel else .ok s
  | fuel + 1, s =>
    if s.i < data_len then
      match loop_body data keystream s with
      | .ok s1 => for_loop data keystream data_len fuel s1
      | .error f => .error f
    else
      .ok s

/-- The body of `c_bulk_xor` after `PyArg_ParseTuple` has delivered the two
buffers: `data` with `data_len = data.length` and `keystream` with
`key_len = keystream.length`. -/
def c_bulk_xor (heap : Nat → Byte) (data keystream : List Byte) : Outcome :=
  let data_len := data.length
  let key_len := keystream.length
  if data_len ≠ key_len then
    .raised { kind := .ValueError, msg := "Length mismatch between data and keystream" }
  else
    let output := new_uint8_array heap data_len
    match for_loop data keystream data_len data_len { i := 0, output := output } with
    | .ok s => .returned (s.output.take data_len)
    | .error f => .fault f

/-- A heap whose cells all hold `0xAA`, used for concrete evaluations. -/
def heapAA : Nat → Byte := fun _ => 0xAA

/-! ## Lemmas on bytes -/

theorem xor8_val (a b : Byte) : (xor8 a b).val = a.val ^^^ b.val := by
  have h : a.val ^^^ b.val < 2 ^ 8 := Nat.xor_lt_two_pow a.isLt b.isLt
  show (a.val ^^^ b.val) % 256 = a.val ^^^ b.val
  exact Nat.mod_eq_of_lt h

theorem xor8_comm (a b : Byte) : xor8 a b = xor8 b a := by
  apply Fin.ext
  rw [xor8_val, xor8_val, Nat.xor_comm]

theorem xor8_assoc (a b c : Byte) : xor8 (xor8 a b) c = xor8 a (xor8 b c) := by
  apply Fin.ext
  rw [xor8_val, xor8_val, xor8_val, xor8_val, Nat.xor_assoc]

theorem xor8_self (a : Byte) : xor8 a a = 0 := by
  apply Fin.ext
  rw [xor8_val, Nat.xor_self]
  rfl

theorem xor8_zero (a : Byte) : xor8 a 0 = a := by
  apply Fin.ext
  rw [xor8_val]
  show a.val ^^^ 0 = a.val
  exact Nat.xor_zero _

theorem xor8_cancel (a b : Byte) : xor8 (xor8 a b) b = a := by
  rw [xor8_assoc, xor8_self, xor8_zero]

/-! ## The loop -/

/-- Passing one more cell of the output: the prefix up to `i + 1` of the
buffer after the store at `i`, followed by the values still to be written
after `i`, is the prefix up to `i` followed by the values from `i` on. -/
theorem take_set_append_drop (out z : List Byte) (i : Nat)
    (ho : i < out.length) (hz : i < z.length) :
    (out.set i z[i]).take (i + 1) ++ z.drop (i + 1) = out.take i ++ z.drop i := by
  have h1 : (out.set i z[i]).take (i + 1) = out.take i ++ [z[i]] := by
    have h0 : (out.set i z[i]).take i = out.take i := by
      apply List.ext_getElem?
      intro m
      by_cases hm : m < i
      · have hne : ¬ i = m := by omega
        simp [List.getElem?_take, hm, List.getElem?_set, hne]
      · simp [List.getElem?_take, hm]
    rw [List.take_succ, h0]
    simp [List.getElem?_set, ho]
  rw [h1, List.drop_eq_getElem_cons hz]
  simp

/-- The loop invariant, run to the end: from any state whose counter is at
most `n` and whose output buffer has `n` cells, with at least `n - i`
iterations allowed, the loop ends normally with counter `n`; the cells below
the starting counter are untouched and every cell from the starting counter
on holds the exclusive-or of the two input bytes at its position. -/
theorem for_loop_run (data ks : List Byte) (n : Nat)
    (hd : data.length = n) (hk : ks.length = n) :
    ∀ (fuel : Nat) (s : LoopState), s.i ≤ n → s.output.length = n → n - s.i ≤ fuel →
      for_loop data ks n fuel s
        = .ok ⟨n, s.output.take s.i ++ (List.zipWith xor8 data ks).drop s.i⟩ := by
  intro fuel
  induction fuel with
  | zero =>
    intro s hi ho hf
    have hin : s.i = n := by omega
    have hz : (List.zipWith xor8 data ks).length = n := by simp [hd, hk]
    obtain ⟨i, out⟩ := s
    simp only at hin ho
    subst hin
    simp [for_loop, ← ho]
    left
    omega
  | succ fuel ih =>
    intro s hi ho hf
    obtain ⟨i, out⟩ := s
    simp only at hi ho hf
    have hz : (List.zipWith xor8 data ks).length = n := by simp [hd, hk]
    by_cases hlt : i < n
    · have hdi : i < data.length := by omega
      have hki : i < ks.length := by omega
      have hoi : i < out.length := by omega
      have hzi : i < (List.zipWith xor8 data ks).length := by omega
      have hb : loop_body data ks ⟨i, out⟩
          = .ok ⟨i + 1, out.set i (xor8 data[i] ks[i])⟩ := by
        simp [loop_body, List.getElem?_eq_getElem hdi, List.getElem?_eq_getElem hki, hoi]
      have hstep : for_loop data ks n (fuel + 1) ⟨i, out⟩
          = for_loop data ks n fuel ⟨i + 1, out.set i (xor8 data[i] ks[i])⟩ := by
        simp [for_loop, hlt, hb]
      rw [hstep, ih ⟨i + 1, out.set i (xor8 data[i] ks[i])⟩ (by simpa using hlt)
        (by simpa using ho) (by simp only; omega)]
      have hv : xor8 data[i] ks[i] = (List.zipWith xor8 data ks)[i] := by
        rw [List.getElem_zipWith]
      simp only [hv]
      rw [take_set_append_drop out _ i hoi hzi]
    · have hin : i = n := by omega
      subst hin
      simp [for_loop]
      rw [List.drop_of_length_le (by omega)]
      simp [← ho]

/-- With fewer iterations allowed than remain, the loop stops for lack of
budget: no run shorter than `n - i` iterations reaches the end. -/
theorem for_loop_short (data ks : List Byte) (n : Nat)
    (hd : data.length = n) (hk : ks.length = n) :
    ∀ (fuel : Nat) (s : LoopState), s.i ≤ n → s.output.length = n → fuel < n - s.i →
      for_loop data ks n fuel s = .error .outOfFuel := by
  intro fuel
  induction fuel with
  | zero =>
    intro s hi ho hf
    have hlt : s.i < n := by omega
    simp [for_loop, hlt]
  | succ fuel ih =>
    intro s hi ho hf
    obtain ⟨i, out⟩ := s
    simp only at hi ho hf
    have hlt : i < n := by omega
    have hdi : i < data.length := by omega
    have hki : i < ks.length := by omega
    have hoi : i < out.length := by omega
    have hb : loop_body data ks ⟨i, out⟩
        = .ok ⟨i + 1, out.set i (xor8 data[i] ks[i])⟩ := by
      simp [loop_body, List.getElem?_eq_getElem hdi, List.getElem?_eq_getElem hki, hoi]
    have hstep : for_loop data ks n (fuel + 1) ⟨i, out⟩
        = for_loop data ks n fuel ⟨i + 1, out.set i (xor8 data[i] ks[i])⟩ := by
      simp [for_loop, hlt, hb]
    rw [hstep]
    exact ih ⟨i + 1, out.set i (xor8 data[i] ks[i])⟩ (by simpa using hlt)
      (by simpa using ho) (by simp only; omega)

theorem new_uint8_array_length (heap : Nat → Byte) (n : Nat) :
    (new_uint8_array heap n).length = n := by
  simp [new_uint8_array]

/-- On buffers of equal length the call returns the position-wise
exclusive-or of the two buffers, whatever the fresh array held. -/
theorem c_bulk_xor_eq (heap : Nat → Byte) (data ks : List Byte)
    (h : data.length = ks.length) :
    c_bulk_xor heap data ks = .returned (List.zipWith xor8 data ks) := by
  have hrun := for_loop_run data ks data.length rfl h.symm data.length
    ⟨0, new_uint8_array heap data.length⟩ (Nat.zero_le _)
    (new_uint8_array_length heap _) (by simp)
  simp only [c_bulk_xor, h, ne_eq, not_true_eq_false, if_false] at hrun ⊢
  simp only [← h] at hrun ⊢
  rw [hrun]
  simp [h]

/-- On buffers of different length the call raises `ValueError`. -/
theorem c_bulk_xor_ne (heap : Nat → Byte) (data ks : List Byte)
    (h : data.length ≠ ks.length) :
    c_bulk_xor heap data ks
      = .raised ⟨.ValueError, "Length mismatch between data and keystream"⟩ := by
  simp [c_bulk_xor, h]

/-! ## Position-wise exclusive-or of lists -/

theorem zipWith_xor8_cancel :
    ∀ (x k : List Byte), x.length = k.length →
      List.zipWith xor8 (List.zipWith xor8 x k) k = x
  | [], [], _ => rfl
  | a :: x, b :: k, h => by
    simp [xor8_cancel, zipWith_xor8_cancel x k (by simpa using h)]
  | [], _ :: _, h => by simp at h
  | _ :: _, [], h => by simp at h

theorem zipWith_xor8_comm :
    ∀ (x k : List Byte), List.zipWith xor8 x k = List.zipWith xor8 k x
  | [], [] => rfl
  | [], _ :: _ => rfl
  | _ :: _, [] => rfl
  | a :: x, b :: k => by
    simp [xor8_comm a b, zipWith_xor8_comm x k]

theorem zipWith_xor8_zeros :
    ∀ (x : List Byte), List.zipWith xor8 x (List.replicate x.length 0) = x
  | [] => rfl
  | a :: x => by
    simp [List.replicate_succ, xor8_zero, zipWith_xor8_zeros x]

theorem zipWith_xor8_self :
    ∀ (x : List Byte), List.zipWith xor8 x x = List.replicate x.length 0
  | [] => rfl
  | a :: x => by
    simp [List.replicate_succ, xor8_self, zipWith_xor8_self x]

theorem zipWith_xor8_assoc :
    ∀ (x k1 k2 : List Byte),
      List.zipWith xor8 (List.zipWith xor8 x k1) k2
        = List.zipWith xor8 x (List.zipWith xor8 k1 k2)
  | [], _, _ => by simp
  | _ :: _, [], _ => by simp
  | _ :: _, _ :: _, [] => by simp
  | a :: x, b :: k1, c :: k2 => by
    simp [xor8_assoc, zipWith_xor8_assoc x k1 k2]

/-- Without the length comparison the loop would read past the shorter
buffer: the fault is reachable, the comparison is what excludes it. -/
theorem for_loop_unchecked_fault :
    for_loop [1, 2] [1] 2 2 ⟨0, [0, 0]⟩ = .error .outOfBounds := rfl

/-! ## The claims -/

/-- C1: on a data buffer and a keystream buffer of equal length the call
returns a bytes object of that same length, and the byte at every position
`i` below the length is the exclusive-or of `data[i]` and `keystream[i]`,
as numbers and bit by bit; on `01 02 03` and `FF 00 0F` it returns
`FE 02 0C`.  The content of the fresh array does not matter. -/
theorem c_bulk_xor_returns_xor (heap : Nat → Byte) (data keystream : List Byte)
    (h : data.length = keystream.length) :
    (∃ out, c_bulk_xor heap data keystream = .returned out ∧
      out.length = data.length ∧
      ∀ (i : Nat) (_ : i < data.length) (_ : i < keystream.length)
        (_ : i < out.length),
        out[i].val = data[i].val ^^^ keystream[i].val ∧
        ∀ j, out[i].val.testBit j
          = Bool.xor (data[i].val.testBit j) (keystream[i].val.testBit j)) ∧
    c_bulk_xor heap [0x01, 0x02, 0x03] [0xFF, 0x00, 0x0F]
      = .returned [0xFE, 0x02, 0x0C] := by
  refine ⟨⟨List.zipWith xor8 data keystream, c_bulk_xor_eq heap data keystream h,
    by simp [h], ?_⟩, ?_⟩
  · intro i _ hk ho
    have hv : (List.zipWith xor8 data keystream)[i].val
        = data[i].val ^^^ keystream[i].val := by
      rw [List.getElem_zipWith, xor8_val]
    refine ⟨hv, ?_⟩
    intro j
    rw [hv, Nat.testBit_xor]
  · rw [c_bulk_xor_eq heap [0x01, 0x02, 0x03] [0xFF, 0x00, 0x0F] rfl]
    rfl

theorem c_bulk_xor_returns_xor_witness :
    ([0x01, 0x02, 0x03] : List Byte).length = ([0xFF, 0x00, 0x0F] : List Byte).length ∧
    ((∃ out, c_bulk_xor heapAA [0x01, 0x02, 0x03] [0xFF, 0x00, 0x0F] = .returned out ∧
      out.length = ([0x01, 0x02, 0x03] : List Byte).length ∧
      ∀ (i : Nat) (_ : i < ([0x01, 0x02, 0x03] : List Byte).length)
        (_ : i < ([0xFF, 0x00, 0x0F] : List Byte).length) (_ : i < out.length),
        out[i].val = ([0x01, 0x02, 0x03] : List Byte)[i].val
          ^^^ ([0xFF, 0x00, 0x0F] : List Byte)[i].val ∧
        ∀ j, out[i].val.testBit j
          = Bool.xor (([0x01, 0x02, 0x03] : List Byte)[i].val.testBit j)
              (([0xFF, 0x00, 0x0F] : List Byte)[i].val.testBit j)) ∧
    c_bulk_xor heapAA [0x01, 0x02, 0x03] [0xFF, 0x00, 0x0F]
      = .returned [0xFE, 0x02, 0x0C]) :=
  ⟨by decide, c_bulk_xor_returns_xor heapAA [0x01, 0x02, 0x03] [0xFF, 0x00, 0x0F] (by decide)⟩

/-- C2: for a data buffer of length `m` and a keystream buffer of length
`n`, the call ends with the exception `ValueError` (the host runtime's
invalid-argument error) exactly when `m ≠ n`; in that case no bytes object
is returned, whether truncated, padded or other, and the loop is not run;
on `01 02` and `01` the call raises. -/
theorem c_bulk_xor_raises_iff (heap : Nat → Byte) (data keystream : List Byte) :
    ((∃ e, c_bulk_xor heap data keystream = .raised e ∧ e.kind = .ValueError)
      ↔ data.length ≠ keystream.length) ∧
    (data.length ≠ keystream.length →
      (∀ out, c_bulk_xor heap data keystream ≠ .returned out) ∧
      (∀ f, c_bulk_xor heap data keystream ≠ .fault f)) ∧
    (∃ e, c_bulk_xor heap [0x01, 0x02] [0x01] = .raised e ∧ e.kind = .ValueError) := by
  refine ⟨⟨?_, ?_⟩, ?_, ?_⟩
  · rintro ⟨e, he, -⟩ hlen
    rw [c_bulk_xor_eq heap data keystream hlen] at he
    cases he
  · intro hne
    exact ⟨_, c_bulk_xor_ne heap data keystream hne, rfl⟩
  · intro hne
    rw [c_bulk_xor_ne heap data keystream hne]
    exact ⟨fun out ho => (by cases ho), fun f hf => (by cases hf)⟩
  · exact ⟨_, c_bulk_xor_ne heap [0x01, 0x02] [0x01] (by decide), rfl⟩

theorem c_bulk_xor_raises_iff_witness :
    ([0x01, 0x02] : List Byte).length ≠ ([0x01] : List Byte).length ∧
    (∀ out, c_bulk_xor heapAA [0x01, 0x02] [0x01] ≠ .returned out) ∧
    (∀ f, c_bulk_xor heapAA [0x01, 0x02] [0x01] ≠ .fault f) :=
  ⟨by decide, (c_bulk_xor_raises_iff heapAA [0x01, 0x02] [0x01]).2.1 (by decide)⟩

/-- C3: self-inverse.  For `x` and `k` of equal length the call on `x` and
`k` returns some bytes `y`, and the call on `y` and `k` returns `x`; both
calls succeed, whatever their fresh arrays held. -/
theorem c_bulk_xor_self_inverse (heap1 heap2 : Nat → Byte) (x k : List Byte)
    (h : x.length = k.length) :
    ∃ y, c_bulk_xor heap1 x k = .returned y ∧ c_bulk_xor heap2 y k = .returned x := by
  refine ⟨List.zipWith xor8 x k, c_bulk_xor_eq heap1 x k h, ?_⟩
  rw [c_bulk_xor_eq heap2 _ k (by simp [h]), zipWith_xor8_cancel x k h]

theorem c_bulk_xor_self_inverse_witness :
    ([0x01, 0x02, 0x03] : List Byte).length = ([0xFF, 0x00, 0x0F] : List Byte).length ∧
    ∃ y, c_bulk_xor heapAA [0x01, 0x02, 0x03] [0xFF, 0x00, 0x0F] = .returned y ∧
      c_bulk_xor (fun _ => 0x55) y [0xFF, 0x00, 0x0F] = .returned [0x01, 0x02, 0x03] :=
  ⟨by decide, c_bulk_xor_self_inverse heapAA (fun _ => 0x55)
    [0x01, 0x02, 0x03] [0xFF, 0x00, 0x0F] (by decide)⟩

/-- C4: commutativity of the operands.  For `x` and `k` of equal length the
call on `x` and `k` and the call on `k` and `x` both return, and return the
same bytes. -/
theorem c_bulk_xor_comm (heap1 heap2 : Nat → Byte) (x k : List Byte)
    (h : x.length = k.length) :
    (∃ out, c_bulk_xor heap1 x k = .returned out ∧ c_bulk_xor heap2 k x = .returned out) ∧
    c_bulk_xor heap1 x k = c_bulk_xor heap2 k x := by
  have h1 := c_bulk_xor_eq heap1 x k h
  have h2 := c_bulk_xor_eq heap2 k x h.symm
  rw [zipWith_xor8_comm k x] at h2
  exact ⟨⟨_, h1, h2⟩, by rw [h1, h2]⟩

theorem c_bulk_xor_comm_witness :
    ([0x01, 0x02, 0x03] : List Byte).length = ([0xFF, 0x00, 0x0F] : List Byte).length ∧
    c_bulk_xor heapAA [0x01, 0x02, 0x03] [0xFF, 0x00, 0x0F]
      = c_bulk_xor (fun _ => 0x55) [0xFF, 0x00, 0x0F] [0x01, 0x02, 0x03] :=
  ⟨by decide, (c_bulk_xor_comm heapAA (fun _ => 0x55)
    [0x01, 0x02, 0x03] [0xFF, 0x00, 0x0F] (by decide)).2⟩

/-- C5: identity with the zero keystream.  For every `x` the call on `x`
and `len(x)` bytes `0x00` returns `x`. -/
theorem c_bulk_xor_zero_keystream (heap : Nat → Byte) (x : List Byte) :
    c_bulk_xor heap x (List.replicate x.length 0x00) = .returned x := by
  rw [c_bulk_xor_eq heap x _ (by simp), zipWith_xor8_zeros x]

/-- C7: the empty input is valid.  The call on the empty buffer and the
empty buffer raises nothing and returns the empty bytes object. -/
theorem c_bulk_xor_empty (heap : Nat → Byte) :
    c_bulk_xor heap [] [] = .returned [] ∧
    ∀ e, c_bulk_xor heap [] [] ≠ .raised e := by
  have h : c_bulk_xor heap [] [] = .returned [] := rfl
  refine ⟨h, ?_⟩
  intro e he
  rw [h] at he
  cases he

/-- C6, as stated, fails: on `01 02` and `01` the lengths differ and the
exception raised carries a message that is not the string
`length mismatch between data and keystream`. -/
theorem c_bulk_xor_msg_lowercase_fails :
    ([0x01, 0x02] : List Byte).length ≠ ([0x01] : List Byte).length ∧
    ∃ e, c_bulk_xor heapAA [0x01, 0x02] [0x01] = .raised e ∧
      e.msg ≠ "length mismatch between data and keystream" :=
  ⟨by decide, ⟨.ValueError, "Length mismatch between data and keystream"⟩,
    by decide, by decide⟩

/-- C6, amended: when the lengths of data and keystream differ, the
exception raised carries the message
`Length mismatch between data and keystream`, with a capital first letter;
it is the claimed wording up to the case of the letters. -/
theorem c_bulk_xor_mismatch_msg (heap : Nat → Byte) (data keystream : List Byte)
    (h : data.length ≠ keystream.length) :
    ∃ e, c_bulk_xor heap data keystream = .raised e ∧
      e.msg = "Length mismatch between data and keystream" ∧
      e.msg.toList.map Char.toLower
        = "length mismatch between data and keystream".toList :=
  ⟨_, c_bulk_xor_ne heap data keystream h, rfl, by decide⟩

theorem c_bulk_xor_mismatch_msg_witness :
    ([0x01, 0x02] : List Byte).length ≠ ([0x01] : List Byte).length ∧
    ∃ e, c_bulk_xor heapAA [0x01, 0x02] [0x01] = .raised e ∧
      e.msg = "Length mismatch between data and keystream" ∧
      e.msg.toList.map Char.toLower
        = "length mismatch between data and keystream".toList :=
  ⟨by decide, c_bulk_xor_mismatch_msg heapAA [0x01, 0x02] [0x01] (by decide)⟩

/-- C8: index safety of the loop.  When the length comparison passes, the
loop started as in `c_bulk_xor` (counter `0`, fresh array of `data_len`
cells) never takes the out-of-bounds branch, however many iterations it is
allowed; allowed `data_len` iterations or more it ends normally with the
counter equal to `data_len`, the buffer still of `data_len` cells; allowed
fewer it has not ended.  So it runs exactly `data_len` iterations, each at
an index below `data_len`, and the call ends with no fault. -/
theorem for_loop_index_safe (heap : Nat → Byte) (data keystream : List Byte)
    (h : data.length = keystream.length) :
    (∀ fuel, for_loop data keystream data.length fuel
        ⟨0, new_uint8_array heap data.length⟩ ≠ .error .outOfBounds) ∧
    (∀ fuel, data.length ≤ fuel →
      ∃ out, for_loop data keystream data.length fuel
          ⟨0, new_uint8_array heap data.length⟩ = .ok ⟨data.length, out⟩ ∧
        out.length = data.length) ∧
    (∀ fuel, fuel < data.length →
      for_loop data keystream data.length fuel
        ⟨0, new_uint8_array heap data.length⟩ = .error .outOfFuel) ∧
    (∀ f, c_bulk_xor heap data keystream ≠ .fault f) := by
  have hlen := new_uint8_array_length heap data.length
  have hrun := fun fuel (hf : data.length ≤ fuel) =>
    for_loop_run data keystream data.length rfl h.symm fuel
      ⟨0, new_uint8_array heap data.length⟩ (Nat.zero_le _) hlen
      (by simp only; omega)
  have hshort := fun fuel (hf : fuel < data.length) =>
    for_loop_short data keystream data.length rfl h.symm fuel
      ⟨0, new_uint8_array heap data.length⟩ (Nat.zero_le _) hlen
      (by simp only; omega)
  refine ⟨?_, ?_, hshort, ?_⟩
  · intro fuel hoob
    by_cases hf : data.length ≤ fuel
    · rw [hrun fuel hf] at hoob
      cases hoob
    · rw [hshort fuel (by omega)] at hoob
      cases hoob
  · intro fuel hf
    exact ⟨_, hrun fuel hf, by simp [h]⟩
  · intro f hf
    rw [c_bulk_xor_eq heap data keystream h] at hf
    cases hf

theorem for_loop_index_safe_witness :
    ([0x01, 0x02, 0x03] : List Byte).length = ([0xFF, 0x00, 0x0F] : List Byte).length ∧
    (∀ fuel, for_loop [0x01, 0x02, 0x03] [0xFF, 0x00, 0x0F] 3 fuel
        ⟨0, new_uint8_array heapAA 3⟩ ≠ .error .outOfBounds) ∧
    for_loop [0x01, 0x02, 0x03] [0xFF, 0x00, 0x0F] 3 3 ⟨0, new_uint8_array heapAA 3⟩
      = .ok ⟨3, [0xFE, 0x02, 0x0C]⟩ ∧
    for_loop [0x01, 0x02, 0x03] [0xFF, 0x00, 0x0F] 3 2 ⟨0, new_uint8_array heapAA 3⟩
      = .error .outOfFuel :=
  ⟨by decide,
    (for_loop_index_safe heapAA [0x01, 0x02, 0x03] [0xFF, 0x00, 0x0F] (by decide)).1,
    rfl, rfl⟩

/-- C9: chunking.  For `x1`, `k1` of equal length and `x2`, `k2` of equal
length, the call on each pair returns, and the call on `x1 ++ x2` and
`k1 ++ k2` returns the two results one after the other. -/
theorem c_bulk_xor_append (heap heap1 heap2 : Nat → Byte) (x1 k1 x2 k2 : List Byte)
    (h1 : x1.length = k1.length) (h2 : x2.length = k2.length) :
    ∃ o1 o2, c_bulk_xor heap1 x1 k1 = .returned o1 ∧
      c_bulk_xor heap2 x2 k2 = .returned o2 ∧
      c_bulk_xor heap (x1 ++ x2) (k1 ++ k2) = .returned (o1 ++ o2) := by
  refine ⟨_, _, c_bulk_xor_eq heap1 x1 k1 h1, c_bulk_xor_eq heap2 x2 k2 h2, ?_⟩
  rw [c_bulk_xor_eq heap _ _ (by simp [h1, h2]), List.zipWith_append _ _ _ _ _ h1]

theorem c_bulk_xor_append_witness :
    ([0x01] : List Byte).length = ([0xFF] : List Byte).length ∧
    ([0x02, 0x03] : List Byte).length = ([0x00, 0x0F] : List Byte).length ∧
    ∃ o1 o2, c_bulk_xor heapAA [0x01] [0xFF] = .returned o1 ∧
      c_bulk_xor heapAA [0x02, 0x03] [0x00, 0x0F] = .returned o2 ∧
      c_bulk_xor heapAA ([0x01] ++ [0x02, 0x03]) ([0xFF] ++ [0x00, 0x0F])
        = .returned (o1 ++ o2) :=
  ⟨by decide, by decide,
    c_bulk_xor_append heapAA heapAA heapAA [0x01] [0xFF] [0x02, 0x03] [0x00, 0x0F]
      (by decide) (by decide)⟩

/-- C10: keystream composition.  For `x`, `k1`, `k2` of the same length,
combining `x` with `k1` and the result with `k2` returns the same bytes as
combining `x` with the combination of `k1` and `k2`, all four calls
returning; and the call on `x` and `x` returns `len(x)` bytes `0x00`. -/
theorem c_bulk_xor_compose (ha hb hc hd he : Nat → Byte) (x k1 k2 : List Byte)
    (h1 : x.length = k1.length) (h2 : k1.length = k2.length) :
    (∃ y kk z, c_bulk_xor ha x k1 = .returned y ∧
      c_bulk_xor hb k1 k2 = .returned kk ∧
      c_bulk_xor hc y k2 = .returned z ∧
      c_bulk_xor hd x kk = .returned z) ∧
    c_bulk_xor he x x = .returned (List.replicate x.length 0x00) := by
  refine ⟨⟨_, _, _, c_bulk_xor_eq ha x k1 h1, c_bulk_xor_eq hb k1 k2 h2,
    c_bulk_xor_eq hc _ k2 (by simp [h1, h2]), ?_⟩, ?_⟩
  · rw [c_bulk_xor_eq hd x _ (by simp [h1, h2]), zipWith_xor8_assoc]
  · rw [c_bulk_xor_eq he x x rfl, zipWith_xor8_self]

theorem c_bulk_xor_compose_witness :
    ([0x01, 0x02] : List Byte).length = ([0xFF, 0x00] : List Byte).length ∧
    ([0xFF, 0x00] : List Byte).length = ([0x0F, 0xF0] : List Byte).length ∧
    (∃ y kk z, c_bulk_xor heapAA [0x01, 0x02] [0xFF, 0x00] = .returned y ∧
      c_bulk_xor heapAA [0xFF, 0x00] [0x0F, 0xF0] = .returned kk ∧
      c_bulk_xor heapAA y [0x0F, 0xF0] = .returned z ∧
      c_bulk_xor heapAA [0x01, 0x02] kk = .returned z) ∧
    c_bulk_xor heapAA [0x01, 0x02] [0x01, 0x02] = .returned [0x00, 0x00] :=
  ⟨by decide, by decide,
    c_bulk_xor_compose heapAA heapAA heapAA heapAA heapAA
      [0x01, 0x02] [0xFF, 0x00] [0x0F, 0xF0] (by decide) (by decide)⟩

end KhanCore
